import Mathlib

/-!
Shallow embedding of `simple_com_server` (files `server.py` and `__main__.py`).

Python strings and byte strings are both modelled as `List Char` (all the
strings relevant to the claims are ASCII, where the `str`/`bytes` distinction
and UTF-8 encoding are the identity).  String literals are written
`"...".toList` for readability.

The embedding models:
* the comma-separated device-string parsing in `TCPServer.__init__` (server.py
  lines 57-67);
* `TCPServer.readall` (lines 115-143) in both delimiter mode and idle-timeout
  mode, with the serial device abstracted as a list of read events;
* `TCPServer.send_to_serial` (lines 145-168) at the level of the serial-channel
  state, in particular the reconnect step on lines 148-149;
* the per-client loop `TCPServer._client_connected_cb` (lines 170-214) together
  with the server's `asyncio.Lock` as a small interleaving transition system;
* `asyncio.gather` as used by `com_server` in `__main__.py` (lines 51-62).
-/

namespace SimpleCom

/-! ## Device-string parsing (`TCPServer.__init__`, server.py lines 57-67) -/

/-- A value stored in `TCPServer._extra_options`: Python keeps the split-off
substring as a `str` unless the `int(value)` branch on line 66 runs, in which
case it becomes an `int`. -/
inductive OptValue
  | intVal : Int → OptValue
  | strVal : List Char → OptValue
deriving DecidableEq

/-- Python's `s.split(sep)` for a one-character separator `sep`: splits at
every occurrence of `sep`, keeping empty pieces (`"".split(",") == [""]`,
`"a,,b".split(",") == ["a","","b"]`). -/
def pySplit (sep : Char) : List Char → List (List Char)
  | [] => [[]]
  | c :: rest =>
      match pySplit sep rest with
      | [] => [[]]
      | h :: t => if c = sep then [] :: h :: t else (c :: h) :: t

/-- Decimal digit run for `pyInt`: `none` unless the list is a nonempty string
of ASCII digits. -/
def digitsToNat : List Char → Option Nat
  | [] => none
  | [c] => if c.isDigit then some (c.toNat - 48) else none
  | c :: rest =>
      if c.isDigit then
        (digitsToNat rest).map (fun n => (c.toNat - 48) * 10 ^ rest.length + n)
      else none

/-- Python's `int(value)` on a string: an optional sign followed by digits
parses to the integer; anything else raises `ValueError`, modelled as `none`.
(Python additionally strips whitespace and allows underscores; no input in
this development uses either.) -/
def pyInt : List Char → Option Int
  | '-' :: rest => (digitsToNat rest).map (fun n => -(n : Int))
  | '+' :: rest => (digitsToNat rest).map (fun n => (n : Int))
  | l => (digitsToNat l).map (fun n => (n : Int))

/-- Python dict assignment `self._extra_options[key] = value`: replaces the
value of an existing key in place, otherwise appends the new binding. -/
def insertOpt (opts : List (List Char × OptValue)) (key : List Char)
    (v : OptValue) : List (List Char × OptValue) :=
  if opts.any (fun p => p.1 = key) then
    opts.map (fun p => if p.1 = key then (key, v) else p)
  else opts ++ [(key, v)]

/-- One iteration of the `for o in other` loop on lines 63-67 of server.py:

* `key, value = o.split("=")` — raises `ValueError` (modelled `none`) unless
  the split has exactly two parts;
* `if value in ["baudrate", "baudrate", "stopbits"]: value = int(value)` —
  note the source tests the VALUE, not the key, against this list (and lists
  `"baudrate"` twice), so the `int` conversion runs only when the value itself
  is one of those two words, and then `int` raises;
* `self._extra_options[key] = value`. -/
def parseOne (opts : List (List Char × OptValue)) (o : List Char) :
    Option (List (List Char × OptValue)) :=
  match pySplit '=' o with
  | [key, value] =>
      if value ∈ ["baudrate".toList, "baudrate".toList, "stopbits".toList] then
        (pyInt value).map (fun n => insertOpt opts key (OptValue.intVal n))
      else
        some (insertOpt opts key (OptValue.strVal value))
  | _ => none

/-- Lines 57-67 of server.py: the device string is either taken whole (when it
has no comma) or split into the device path and `key=value` options.  `none`
models a `ValueError` escaping `__init__`. -/
def parseComPath (comPath : List Char) :
    Option (List Char × List (List Char × OptValue)) :=
  if ',' ∈ comPath then
    match pySplit ',' comPath with
    | [] => none
    | path :: other =>
        (List.foldlM parseOne [] other).map (fun opts => (path, opts))
  else
    some (comPath, [])

/-! ## Response accumulation (`TCPServer.readall`, server.py lines 115-143)

The serial device is abstracted as the list of outcomes of the successive
one-byte read attempts made against `self.rserial`. -/

/-- Outcome of one read attempt against the serial stream reader:

* `byteEv c` — a byte arrives before the idle window expires
  (`readexactly(1)` returns `c`);
* `timeoutEv` — no byte arrives within `timeout`
  (`asyncio.wait_for` raises `asyncio.TimeoutError`);
* `endEv` — the stream reaches EOF (`asyncio.IncompleteReadError`);
* `errorEv` — any other exception from the read. -/
inductive ReadEvent
  | byteEv : Char → ReadEvent
  | timeoutEv : ReadEvent
  | endEv : ReadEvent
  | errorEv : ReadEvent
deriving DecidableEq

/-- One character of Python's `html.escape(s)` (with its default
`quote=True`).  `html.escape` is a chain of five `str.replace` calls; since no
replacement string contains a character that a later `replace` targets, the
chain is equivalent to this character-wise map. -/
def escapeChar (c : Char) : List Char :=
  if c = '&' then "&amp;".toList
  else if c = '<' then "&lt;".toList
  else if c = '>' then "&gt;".toList
  else if c = '"' then "&quot;".toList
  else if c = '\'' then "&#x27;".toList
  else [c]

/-- Python's `html.escape`, applied by server.py line 120 to the configured
delimiter before it is used as the `readuntil` separator. -/
def htmlEscape (s : List Char) : List Char := (s.map escapeChar).flatten

/-- `reader.readuntil(sep)` (server.py line 120) run against the event list:
bytes accumulate until `sep` is a suffix of the data read so far, which is
returned (`Except.ok`); EOF raises `IncompleteReadError` and any other event
raises too (`Except.error`).  A pause (`timeoutEv`) does not interrupt
`readuntil` — the delimiter branch has no `wait_for` — so the wait simply
continues.  `none` means the event list ran out with `readuntil` still
blocked. -/
def readUntilEv (sep : List Char) :
    List ReadEvent → List Char → Option (Except Unit (List Char))
  | [], _ => none
  | ReadEvent.byteEv c :: rest, acc =>
      if sep <:+ acc ++ [c] then some (Except.ok (acc ++ [c]))
      else readUntilEv sep rest (acc ++ [c])
  | ReadEvent.timeoutEv :: rest, acc => readUntilEv sep rest acc
  | ReadEvent.endEv :: _, _ => some (Except.error ())
  | ReadEvent.errorEv :: _, _ => some (Except.error ())

/-- Pure counterpart of `readUntilEv` on the stream of bytes alone: returns
the accumulator extended by the shortest nonempty prefix of the remaining
bytes that makes `sep` a suffix, or `none` when no prefix does. -/
def readUntilPure (sep : List Char) : List Char → List Char → Option (List Char)
  | [], _ => none
  | c :: rest, acc =>
      if sep <:+ acc ++ [c] then some (acc ++ [c])
      else readUntilPure sep rest (acc ++ [c])

/-- The idle-timeout loop of `readall` (server.py lines 131-143): repeatedly
`await asyncio.wait_for(reader.readexactly(1), timeout)`, appending each byte
to `reply`; a `TimeoutError` returns the accumulated `reply`; an
`IncompleteReadError` or any other exception is logged and returns `b""`,
discarding the accumulation.  `none` means the event list ran out with the
loop still running. -/
def readallIdleGo : List ReadEvent → List Char → Option (List Char)
  | [], _ => none
  | ReadEvent.byteEv c :: rest, reply => readallIdleGo rest (reply ++ [c])
  | ReadEvent.timeoutEv :: _, reply => some reply
  | ReadEvent.endEv :: _, _ => some []
  | ReadEvent.errorEv :: _, _ => some []

/-- The mode test on server.py line 118:
`if self.delimiter is not None and self.delimiter != ""`. -/
def delimiterActive : Option (List Char) → Bool
  | none => false
  | some d => d ≠ []

/-- `TCPServer.readall` (server.py lines 115-143).  Delimiter mode reads until
the `html.escape`d delimiter with errors returning `b""` (lines 119-129); idle
mode runs the one-byte accumulation loop (lines 131-143). -/
def readall (delimiter : Option (List Char)) (evs : List ReadEvent) :
    Option (List Char) :=
  if delimiterActive delimiter then
    match readUntilEv (htmlEscape (delimiter.getD [])) evs [] with
    | some (Except.ok r) => some r
    | some (Except.error _) => some []
    | none => none
  else
    readallIdleGo evs []

/-- Follows the spec's words, for comparison with `readall` (§4.2 of the spec:
"read from the device until the exact literal `delimiter` byte sequence has
been seen (inclusive), and return everything read including the delimiter",
with stream end before the delimiter returning empty): identical to the
delimiter branch of `readall` except that the separator is the delimiter
itself, not its `html.escape`. -/
def readallLiteralSpec (delimiter : List Char) (evs : List ReadEvent) :
    Option (List Char) :=
  match readUntilEv delimiter evs [] with
  | some (Except.ok r) => some r
  | some (Except.error _) => some []
  | none => none

/-! ## Serial channel state and `send_to_serial` (server.py lines 102-168) -/

/-- The state of the serial channel of one `TCPServer`: `serialOpen` is true
when `self.wserial` exists and is not closing (the write side of the
`open_serial_connection` pair is usable). -/
structure BridgeState where
  serialOpen : Bool
deriving DecidableEq

/-- The body of `start_serial` (server.py lines 102-113): closes the old
handle pair if one exists, then opens a fresh serial connection, leaving the
channel open. -/
def startSerial (st : BridgeState) : BridgeState := { st with serialOpen := true }

/-- The reconnect call on server.py line 149: `self.start_serial()` with no
`await`.  In Python, calling a coroutine function without awaiting it only
creates a coroutine object; the body of `start_serial` never executes, so the
channel state is unchanged by this call. -/
def unAwaitedStartSerial (st : BridgeState) : BridgeState := st

/-- Result of one `send_to_serial` call as seen by its caller. -/
inductive SendResult
  | reply : List Char → SendResult
  | raisedAtWrite : SendResult
deriving DecidableEq

/-- `send_to_serial` (server.py lines 145-168).  Line 148 tests
`not self.wserial or self.wserial.is_closing()` and line 149 runs the
un-awaited `start_serial()`; lines 151-152 then write to `self.wserial`, which
raises out of `send_to_serial` when the handle is still missing or closing
(`AttributeError` on `None`, or the failure of a write/drain on a closing
transport).  Otherwise the reply is whatever `readall` produces (lines
155-168; `readall` itself swallows its read errors, returning `b""`).
`none` models an exchange still blocked on the device. -/
def sendToSerial (st : BridgeState) (delimiter : Option (List Char))
    (evs : List ReadEvent) : BridgeState × Option SendResult :=
  let st1 := if ¬ st.serialOpen then unAwaitedStartSerial st else st
  if ¬ st1.serialOpen then (st1, some SendResult.raisedAtWrite)
  else
    match readall delimiter evs with
    | some r => (st1, some (SendResult.reply r))
    | none => (st1, none)

/-! ## Client sessions and the lock (`_client_connected_cb`, lines 170-214)

The per-client loop and the server's single `asyncio.Lock` are modelled as an
interleaving transition system.  Each session is a copy of
`_client_connected_cb`; an action is one session running from one suspension
point to the next.  An `asyncio.Lock` is a plain flag with no owner tracking:
`release()` unlocks it no matter which task calls it.  `holder` is ghost
state recording which session's `acquire` set the flag. -/

/-- Program counter of one client session inside `_client_connected_cb`:

* `reading` — at `await reader.read(1024)` (line 181);
* `gotData` — read returned nonempty data, about to enter
  `async with self._lock` (line 191);
* `exchanging` — holding the lock, inside `send_to_serial` / reply write
  (lines 192-197);
* `errHandling` — in the outer `except` (lines 203-214), closing the client
  writer before the guarded release;
* `done` — the coroutine returned. -/
inductive PC
  | reading
  | gotData
  | exchanging
  | errHandling
  | done
deriving DecidableEq

/-- Global state of one `TCPServer`'s sessions: the `asyncio.Lock` flag, the
ghost holder, and the program counter of each session (session `i` is index
`i` of `pcs`). -/
structure SysState where
  locked : Bool
  holder : Option Nat
  pcs : List PC
deriving DecidableEq

/-- One scheduled step of one session. -/
inductive Act
  | readOk : Nat → Act
  | readEof : Nat → Act
  | readRaise : Nat → Act
  | acquire : Nat → Act
  | finishExchange : Nat → Act
  | innerError : Nat → Act
  | errorRelease : Nat → Act
deriving DecidableEq

/-- The session an action belongs to. -/
def actSession : Act → Nat
  | Act.readOk i => i
  | Act.readEof i => i
  | Act.readRaise i => i
  | Act.acquire i => i
  | Act.finishExchange i => i
  | Act.innerError i => i
  | Act.errorRelease i => i

/-- Program counter of session `i` (`none` when no such session exists). -/
def pcOf (s : SysState) (i : Nat) : Option PC := s.pcs[i]?

/-- Replace session `i`'s program counter. -/
def setPC (s : SysState) (i : Nat) (p : PC) : SysState :=
  { s with pcs := s.pcs.set i p }

/-- One step of the transition system; `none` when the action is not enabled.

* `readOk i` — line 181 returns nonempty data;
* `readEof i` — lines 182-187: `data == b"" or reader.at_eof()`: close the
  client writer and return; no lock operation occurs on this path;
* `readRaise i` — `reader.read` raises, jumping to the outer `except`;
* `acquire i` — line 191, `async with self._lock`: acquires only when the
  flag is clear;
* `finishExchange i` — the `async with` body completes and its exit releases
  the lock; the `while True` loop continues at the next read;
* `innerError i` — lines 198-202: the inner `except` closes the client writer
  and returns; leaving the `async with` block releases the lock once;
* `errorRelease i` — lines 203-214: the outer `except` closes the writer and
  then runs `if self._lock.locked(): self._lock.release()`.  The guard checks
  only that the lock is locked, not that this session ever acquired it, and
  `asyncio.Lock.release` does not check ownership. -/
def applyAct (s : SysState) : Act → Option SysState
  | Act.readOk i =>
      if pcOf s i = some PC.reading then some (setPC s i PC.gotData) else none
  | Act.readEof i =>
      if pcOf s i = some PC.reading then some (setPC s i PC.done) else none
  | Act.readRaise i =>
      if pcOf s i = some PC.reading then some (setPC s i PC.errHandling)
      else none
  | Act.acquire i =>
      if pcOf s i = some PC.gotData ∧ s.locked = false then
        some { setPC s i PC.exchanging with locked := true, holder := some i }
      else none
  | Act.finishExchange i =>
      if pcOf s i = some PC.exchanging then
        some { setPC s i PC.reading with locked := false, holder := none }
      else none
  | Act.innerError i =>
      if pcOf s i = some PC.exchanging then
        some { setPC s i PC.done with locked := false, holder := none }
      else none
  | Act.errorRelease i =>
      if pcOf s i = some PC.errHandling then
        some (if s.locked then
                { setPC s i PC.done with locked := false, holder := none }
              else setPC s i PC.done)
      else none

/-- Run a list of actions in order; `none` if any action is not enabled. -/
def runActs (s : SysState) : List Act → Option SysState
  | [] => some s
  | a :: rest =>
      match applyAct s a with
      | some s2 => runActs s2 rest
      | none => none

/-- Three freshly connected sessions, lock free. -/
def init3 : SysState :=
  { locked := false, holder := none, pcs := [PC.reading, PC.reading, PC.reading] }

/-- The schedule that defeats the lock: session 0 acquires and starts its
exchange; session 1's socket read raises, so its outer `except` sees the lock
locked and releases it — a lock session 1 never acquired; session 2 then
acquires and starts an exchange while session 0's is still in flight. -/
def staleReleaseTrace : List Act :=
  [Act.readOk 0, Act.acquire 0, Act.readRaise 1, Act.errorRelease 1,
   Act.readOk 2, Act.acquire 2]

/-- The first three steps of `staleReleaseTrace`: session 0 is exchanging and
holds the lock, session 1 has entered the outer `except`. -/
def preStaleTrace : List Act := [Act.readOk 0, Act.acquire 0, Act.readRaise 1]

/-! ## `com_server` startup (`__main__.py` lines 51-62) -/

/-- `asyncio.gather(*coros)` with its default `return_exceptions=False`, as
used by `com_server`: every coroutine is scheduled (each bridge start is
attempted), but the awaiter of `gather` receives the first exception alone —
the other results, successes and failures alike, are not reported.  The list
order stands in for the completion order of the concurrently running starts. -/
def gatherModel {ε α : Type} : List (Except ε α) → Except ε (List α)
  | [] => Except.ok []
  | Except.error e :: _ => Except.error e
  | Except.ok a :: rest =>
      match gatherModel rest with
      | Except.ok others => Except.ok (a :: others)
      | Except.error e => Except.error e

/-- `com_server` (`__main__.py` lines 51-62): `servers = await
asyncio.gather(*[TCPServer(...).start() for ii in range(len(port))])`.  The
argument is the outcome of each `TCPServer.start()`. -/
def comServerStart {ε α : Type} (starts : List (Except ε α)) :
    Except ε (List α) :=
  gatherModel starts

/-- The state reached by `preStaleTrace`: the lock is held, set by session 0,
while session 1 sits in the outer `except`. -/
def staleMid : SysState :=
  { locked := true, holder := some 0,
    pcs := [PC.exchanging, PC.errHandling, PC.reading] }

/-- The state after session 1's guarded release: the lock is free although
session 0 is still inside its exchange. -/
def staleAfter : SysState :=
  { locked := false, holder := none,
    pcs := [PC.exchanging, PC.done, PC.reading] }

/-- The state reached by `staleReleaseTrace`: sessions 0 and 2 are both inside
`send_to_serial` at the same time. -/
def overlapState : SysState :=
  { locked := true, holder := some 2,
    pcs := [PC.exchanging, PC.done, PC.exchanging] }

/-! ## Theorems -/

/-- Claim C2: the claim states that `"/dev/ttyUSB0,baudrate=9600,stopbits=1"`
parses with `baudrate` and `stopbits` typed as integers.  The code instead
leaves both as strings, because line 65 tests the VALUE (`"9600"`, `"1"`)
rather than the key against `["baudrate", "baudrate", "stopbits"]`, so the
`int` conversion never runs on recognized keys. -/
theorem parseComPath_keeps_strings :
    parseComPath "/dev/ttyUSB0,baudrate=9600,stopbits=1".toList =
      some ("/dev/ttyUSB0".toList,
        [("baudrate".toList, OptValue.strVal "9600".toList),
         ("stopbits".toList, OptValue.strVal "1".toList)]) := by
  decide

/-- Helper: the idle-timeout loop run over a block of byte events followed by
a timeout event returns the accumulator extended by those bytes. -/
theorem readallIdleGo_bytes_timeout (bs : List Char) (rest : List ReadEvent) :
    ∀ acc : List Char,
      readallIdleGo (bs.map ReadEvent.byteEv ++ ReadEvent.timeoutEv :: rest) acc
        = some (acc ++ bs) := by
  induction bs with
  | nil => intro acc; simp [readallIdleGo]
  | cons c cs ih =>
      intro acc
      simpa [readallIdleGo] using ih (acc ++ [c])

/-- Claim C4: in idle-timeout mode, `readall` appends each byte delivered
within its per-attempt window and returns exactly the accumulated bytes
(possibly empty) at the first attempt that times out; in particular the event
stream of `b"PONG\n"` followed by quiescence yields exactly `b"PONG\n"`. -/
theorem readall_idle_accumulates (bs : List Char) (rest : List ReadEvent) :
    readall none (bs.map ReadEvent.byteEv ++ ReadEvent.timeoutEv :: rest)
      = some bs := by
  simpa [readall, delimiterActive] using readallIdleGo_bytes_timeout bs rest []

/-- Helper: the idle-timeout loop discards any partial accumulation and
returns `b""` at the first erroring attempt (EOF or any other exception). -/
theorem readallIdleGo_error_empty (bs : List Char) (rest : List ReadEvent) :
    ∀ acc : List Char,
      readallIdleGo (bs.map ReadEvent.byteEv ++ ReadEvent.endEv :: rest) acc
          = some [] ∧
        readallIdleGo (bs.map ReadEvent.byteEv ++ ReadEvent.errorEv :: rest) acc
          = some [] := by
  induction bs with
  | nil => intro acc; simp [readallIdleGo]
  | cons c cs ih =>
      intro acc
      simpa [readallIdleGo] using ih (acc ++ [c])

/-- Claim C5 counterexample: the claim states that a read error during
accumulation is reported to the caller as a `SerialIOError`, distinguishable
from a clean idle timeout.  In the code, `readall` swallows the error (lines
138-143) and returns `b""`, the very value a clean timeout with no
accumulated data returns: the two outcomes are identical, and no error
reaches `send_to_serial`'s caller. -/
theorem readall_error_vs_timeout :
    readall none [ReadEvent.endEv] = some [] ∧
      readall none [ReadEvent.timeoutEv] = some [] ∧
      readall none [ReadEvent.endEv] = readall none [ReadEvent.timeoutEv] := by
  decide

/-- Claim C5 (amended): a read error during accumulation (stream end or any
other exception) is logged and swallowed: `readall` returns an empty reply to
`send_to_serial` in either mode, discarding any partial accumulation, instead
of raising a distinguishable error — so an errored exchange is
indistinguishable from a clean timeout that accumulated nothing. -/
theorem readall_error_empty (bs : List Char) (rest : List ReadEvent)
    (d : List Char) (hd : d ≠ []) :
    readall none (bs.map ReadEvent.byteEv ++ ReadEvent.endEv :: rest)
        = some [] ∧
      readall none (bs.map ReadEvent.byteEv ++ ReadEvent.errorEv :: rest)
        = some [] ∧
      readall (some d) (ReadEvent.endEv :: rest) = some [] := by
  obtain ⟨h1, h2⟩ := readallIdleGo_error_empty bs rest []
  refine ⟨by simpa [readall, delimiterActive] using h1,
          by simpa [readall, delimiterActive] using h2, ?_⟩
  simp [readall, delimiterActive, hd, readUntilEv]

/-- Witness for `readall_error_empty` at `bs = "AB"`, `rest = []`,
`d = "\r\n"`. -/
theorem readall_error_empty_witness :
    "\r\n".toList ≠ [] ∧
      (readall none (("AB".toList).map ReadEvent.byteEv ++ [ReadEvent.endEv])
          = some [] ∧
        readall none (("AB".toList).map ReadEvent.byteEv ++ [ReadEvent.errorEv])
          = some [] ∧
        readall (some "\r\n".toList) [ReadEvent.endEv] = some []) :=
  ⟨by decide, by
    simpa using readall_error_empty "AB".toList [] "\r\n".toList (by decide)⟩

/-- Claim C10: an empty configured delimiter selects idle-timeout
accumulation: line 118 tests `self.delimiter is not None and self.delimiter
!= ""`, so `delimiter = ""` takes the same branch as no delimiter, and
`readall` behaves identically on every event stream. -/
theorem empty_delimiter_selects_idle :
    delimiterActive (some []) = false ∧
      ∀ evs : List ReadEvent, readall (some []) evs = readall none evs := by
  exact ⟨rfl, fun evs => rfl⟩

/-- Claim C1: the claim states that no two `send_to_serial` exchanges of one
`TCPServer` ever overlap.  The schedule `staleReleaseTrace` is enabled from
the initial state and reaches `overlapState`, in which sessions 0 and 2 are
both at program counter `exchanging` — both inside `send_to_serial` at once —
because session 1's outer `except` (lines 211-213) released the lock that
session 0 was holding. -/
theorem mutual_exclusion_violated :
    runActs init3 staleReleaseTrace = some overlapState ∧
      pcOf overlapState 0 = some PC.exchanging ∧
      pcOf overlapState 2 = some PC.exchanging := by
  decide

/-- Claim C8: the claim states that a session that never acquired the lock
never releases it.  After `preStaleTrace`, the lock was set by session 0's
acquire (`holder = some 0`) and session 0 is still exchanging; session 1 —
whose trace contains no acquire — executes the guarded release of lines
211-213 and the lock becomes free while session 0 still holds it. -/
theorem stale_release_by_non_holder :
    runActs init3 preStaleTrace = some staleMid ∧
      staleMid.locked = true ∧
      staleMid.holder = some 0 ∧
      pcOf staleMid 0 = some PC.exchanging ∧
      applyAct staleMid (Act.errorRelease 1) = some staleAfter ∧
      staleAfter.locked = false ∧
      Act.acquire 1 ∉ preStaleTrace := by
  decide

/-- Claim C6: the claim states that an exchange that finds the channel closed
completes a reopen before writing.  On line 149 `self.start_serial()` is not
awaited, so the reopen never runs: starting from a closed channel,
`send_to_serial` reaches the write with the channel still closed and raises,
even though `start_serial`'s body, had it run, would have opened it. -/
theorem sendToSerial_no_reopen :
    sendToSerial ⟨false⟩ none [ReadEvent.timeoutEv]
        = (⟨false⟩, some SendResult.raisedAtWrite) ∧
      startSerial ⟨false⟩ = ⟨true⟩ := by
  decide

/-- Claim C9 counterexample: the claim states that each bridge start failure
is reported per-bridge rather than aborting the group.  With two bridges,
the outcomes "first start failed, second succeeded" and "both starts failed"
produce the same single aborting exception from `com_server`'s `gather`: the
second bridge's outcome is not reported at all. -/
theorem gather_not_per_bridge :
    comServerStart [Except.error 7, Except.ok 0] =
        (Except.error 7 : Except Nat (List Nat)) ∧
      comServerStart [Except.error 7, Except.error 8] =
        (Except.error 7 : Except Nat (List Nat)) ∧
      comServerStart [Except.error 7, Except.ok 0] =
        comServerStart [Except.error 7, Except.error 8] :=
  ⟨rfl, rfl, rfl⟩

/-- Claim C9 (amended): `com_server` launches every bridge start concurrently
(each start is attempted), but failures are not reported per-bridge: the
first failure becomes the single result of the whole `gather`, aborting the
group and discarding the outcomes of all other bridges. -/
theorem comServerStart_first_error {ε α : Type} (pre : List (Except ε α))
    (e : ε) (rest : List (Except ε α))
    (h : ∀ r ∈ pre, ∃ a, r = Except.ok a) :
    comServerStart (pre ++ Except.error e :: rest) = Except.error e := by
  induction pre with
  | nil => rfl
  | cons r pre2 ih =>
      obtain ⟨a, rfl⟩ := h r (List.mem_cons_self r pre2)
      have ih2 := ih (fun r2 hr2 => h r2 (List.mem_cons_of_mem _ hr2))
      simp only [comServerStart, gatherModel, List.cons_append] at ih2 ⊢
      rw [show gatherModel (pre2.append (Except.error e :: rest))
            = Except.error e from ih2]

/-- Witness for `comServerStart_first_error`: two successful starts, then a
failing one, then another successful one. -/
theorem comServerStart_first_error_witness :
    (∀ r ∈ ([Except.ok 1, Except.ok 2] : List (Except Nat Nat)),
        ∃ a : Nat, r = Except.ok a) ∧
      comServerStart ([Except.ok 1, Except.ok 2] ++
          Except.error 7 :: [(Except.ok 3 : Except Nat Nat)]) =
        Except.error 7 := by
  have hpre : ∀ r ∈ ([Except.ok 1, Except.ok 2] : List (Except Nat Nat)),
      ∃ a : Nat, r = Except.ok a := by
    intro r hr
    rcases List.mem_cons.mp hr with rfl | hr2
    · exact ⟨1, rfl⟩
    rcases List.mem_cons.mp hr2 with rfl | hr3
    · exact ⟨2, rfl⟩
    cases hr3
  exact ⟨hpre,
    comServerStart_first_error [Except.ok 1, Except.ok 2] 7 [Except.ok 3] hpre⟩

/-- Claim C7: a session whose socket read yields zero bytes or EOF (lines
182-187) moves straight to termination: the step is enabled, it leaves the
lock flag and the ghost holder untouched, the session ends at `done`, and no
further action of that session is ever enabled — the arbiter is never
acquired by it. -/
theorem eof_session_never_acquires (s : SysState) (i : Nat)
    (h : pcOf s i = some PC.reading) :
    ∃ s2, applyAct s (Act.readEof i) = some s2 ∧
      s2.locked = s.locked ∧ s2.holder = s.holder ∧
      pcOf s2 i = some PC.done ∧
      ∀ a : Act, actSession a = i → applyAct s2 a = none := by
  have hdone : pcOf (setPC s i PC.done) i = some PC.done := by
    show (s.pcs.set i PC.done)[i]? = some PC.done
    rw [List.getElem?_set_self', show s.pcs[i]? = some PC.reading from h]
    rfl
  refine ⟨setPC s i PC.done, by simp [applyAct, h], rfl, rfl, hdone, ?_⟩
  intro a ha
  cases a <;> simp only [actSession] at ha <;> subst ha <;>
    simp [applyAct, hdone]

/-- Witness for `eof_session_never_acquires`: session 1 of three freshly
connected sessions reads EOF. -/
theorem eof_session_never_acquires_witness :
    pcOf init3 1 = some PC.reading ∧
      ∃ s2, applyAct init3 (Act.readEof 1) = some s2 ∧
        s2.locked = init3.locked ∧ s2.holder = init3.holder ∧
        pcOf s2 1 = some PC.done ∧
        ∀ a : Act, actSession a = 1 → applyAct s2 a = none :=
  ⟨by decide, eof_session_never_acquires init3 1 (by decide)⟩

/-- Helper: each escaped character is a nonempty string. -/
theorem escapeChar_ne_nil (c : Char) : escapeChar c ≠ [] := by
  simp only [escapeChar]
  split_ifs <;> first | decide | simp

/-- Helper: `html.escape` of a nonempty string is nonempty. -/
theorem htmlEscape_ne_nil (l : List Char) (h : l ≠ []) : htmlEscape l ≠ [] := by
  cases l with
  | nil => exact absurd rfl h
  | cons c cs =>
      have h1 := escapeChar_ne_nil c
      simp only [htmlEscape, List.map_cons, List.flatten_cons, ne_eq,
        List.append_eq_nil]
      tauto

/-- Helper: on a stream of byte events closed by EOF, `readuntil` finds what
`readUntilPure` finds on the bytes, and raises `IncompleteReadError` when
`readUntilPure` finds nothing. -/
theorem readUntilEv_eq_pure (sep : List Char) (bs : List Char) :
    ∀ acc : List Char,
      readUntilEv sep (bs.map ReadEvent.byteEv ++ [ReadEvent.endEv]) acc
        = match readUntilPure sep bs acc with
          | some r => some (Except.ok r)
          | none => some (Except.error ()) := by
  induction bs with
  | nil => intro acc; simp [readUntilEv, readUntilPure]
  | cons c cs ih =>
      intro acc
      simp only [List.map_cons, List.cons_append, readUntilEv, readUntilPure]
      by_cases hs : sep <:+ acc ++ [c]
      · simp [hs]
      · simp only [if_neg hs]
        exact ih (acc ++ [c])

/-- Helper: when `readUntilPure` returns a result, the result extends the
accumulator by a nonempty prefix of the remaining bytes and ends with the
separator. -/
theorem readUntilPure_some_spec (sep : List Char) (bs : List Char) :
    ∀ acc r : List Char, readUntilPure sep bs acc = some r →
      sep <:+ r ∧ ∃ p, p ≠ [] ∧ p <+: bs ∧ r = acc ++ p := by
  induction bs with
  | nil => intro acc r h; simp [readUntilPure] at h
  | cons c cs ih =>
      intro acc r h
      simp only [readUntilPure] at h
      by_cases hs : sep <:+ acc ++ [c]
      · rw [if_pos hs] at h
        injection h with h2
        subst h2
        exact ⟨hs, [c], by simp, ⟨cs, rfl⟩, rfl⟩
      · rw [if_neg hs] at h
        obtain ⟨h1, p, hp0, hppre, hr⟩ := ih (acc ++ [c]) r h
        obtain ⟨u, hu⟩ := hppre
        refine ⟨h1, c :: p, by simp, ⟨u, by simp [hu]⟩, by simp [hr]⟩

/-- Helper: the result of `readUntilPure` is the shortest extension whose
tail is a nonempty prefix of the remaining bytes ending in the separator. -/
theorem readUntilPure_min (sep : List Char) (bs : List Char) :
    ∀ acc r : List Char, readUntilPure sep bs acc = some r →
      ∀ t, t ≠ [] → t <+: bs → sep <:+ acc ++ t →
        r.length ≤ acc.length + t.length := by
  induction bs with
  | nil => intro acc r h; simp [readUntilPure] at h
  | cons c cs ih =>
      intro acc r h t ht0 htp hts
      simp only [readUntilPure] at h
      by_cases hs : sep <:+ acc ++ [c]
      · rw [if_pos hs] at h
        injection h with h2
        subst h2
        have h1 : 1 ≤ t.length := by
          cases t with
          | nil => exact absurd rfl ht0
          | cons a t2 => simp
        simp only [List.length_append, List.length_cons, List.length_nil]
        omega
      · rw [if_neg hs] at h
        cases t with
        | nil => exact absurd rfl ht0
        | cons a t2 =>
            rw [List.cons_prefix_cons] at htp
            obtain ⟨rfl, ht2⟩ := htp
            by_cases h2 : t2 = []
            · subst h2
              exact absurd (by simpa using hts) hs
            · have := ih (acc ++ [a]) r h t2 h2 ht2
                (by rwa [List.append_cons] at hts)
              simp only [List.length_append, List.length_cons,
                List.length_nil] at this ⊢
              omega

/-- Helper: when `readUntilPure` finds nothing, no nonempty prefix of the
remaining bytes makes the separator a suffix of the accumulated data. -/
theorem readUntilPure_none_spec (sep : List Char) (bs : List Char) :
    ∀ acc : List Char, readUntilPure sep bs acc = none →
      ∀ t, t ≠ [] → t <+: bs → ¬ sep <:+ acc ++ t := by
  induction bs with
  | nil =>
      intro acc _ t ht0 htp
      rw [List.prefix_nil] at htp
      exact absurd htp ht0
  | cons c cs ih =>
      intro acc h t ht0 htp hts
      simp only [readUntilPure] at h
      by_cases hs : sep <:+ acc ++ [c]
      · rw [if_pos hs] at h
        exact Option.noConfusion h
      · rw [if_neg hs] at h
        cases t with
        | nil => exact ht0 rfl
        | cons a t2 =>
            rw [List.cons_prefix_cons] at htp
            obtain ⟨rfl, ht2⟩ := htp
            by_cases h2 : t2 = []
            · subst h2
              exact hs (by simpa using hts)
            · exact ih (acc ++ [a]) h t2 h2 ht2
                (by rwa [List.append_cons] at hts)

/-- Claim C3 counterexample: the claim states that for EVERY configured
delimiter, `readall` reads up to and including the exact literal delimiter,
and returns empty when the stream ends before the delimiter appears.  With
delimiter `"<"` and device bytes `b"a&lt;x"` — which contain no `'<'` at all —
`readall` returns the nonempty `b"a&lt;"` (it searched for the
`html.escape`d form `"&lt;"`), while the literal-delimiter behavior stated by
the claim returns empty. -/
theorem readall_delim_literal_refuted :
    readall (some "<".toList)
        (("a&lt;x".toList).map ReadEvent.byteEv ++ [ReadEvent.endEv])
      = some "a&lt;".toList ∧
    readallLiteralSpec "<".toList
        (("a&lt;x".toList).map ReadEvent.byteEv ++ [ReadEvent.endEv])
      = some [] ∧
    "a&lt;".toList ≠ [] ∧
    '<' ∉ "a&lt;".toList := by
  decide

/-- Claim C3 (amended): in delimiter mode `readall` reads until the
`html.escape`d form of the configured delimiter has been seen (for delimiters
containing none of `&`, `<`, `>`, `"`, `'` — such as `b"\r\n"` — the escaped
form is the delimiter itself): on a byte stream closed by EOF it returns the
shortest prefix of the stream ending with the escaped delimiter, inclusive,
and returns empty when the stream ends before the escaped delimiter has
appeared. -/
theorem readall_delim_escaped (d : List Char) (bs : List Char) (hd : d ≠ []) :
    (∃ r, readall (some d) (bs.map ReadEvent.byteEv ++ [ReadEvent.endEv])
          = some r ∧
        r <+: bs ∧ htmlEscape d <:+ r ∧
        ∀ t, t <+: bs → htmlEscape d <:+ t → r.length ≤ t.length) ∨
      (readall (some d) (bs.map ReadEvent.byteEv ++ [ReadEvent.endEv])
          = some [] ∧
        ∀ t, t <+: bs → ¬ htmlEscape d <:+ t) := by
  have hsep : htmlEscape d ≠ [] := htmlEscape_ne_nil d hd
  have hact : delimiterActive (some d) = true := by
    simp [delimiterActive, hd]
  have hunfold : readall (some d) (bs.map ReadEvent.byteEv ++ [ReadEvent.endEv])
      = match readUntilEv (htmlEscape d)
          (bs.map ReadEvent.byteEv ++ [ReadEvent.endEv]) [] with
        | some (Except.ok r) => some r
        | some (Except.error _) => some []
        | none => none := by
    simp [readall, hact]
  have hre := readUntilEv_eq_pure (htmlEscape d) bs []
  cases hmatch : readUntilPure (htmlEscape d) bs [] with
  | some r =>
      left
      obtain ⟨hsfx, p, hp0, hppre, hr⟩ :=
        readUntilPure_some_spec (htmlEscape d) bs [] r hmatch
      have hrp : r = p := by simpa using hr
      subst hrp
      refine ⟨r, ?_, hppre, hsfx, ?_⟩
      · rw [hunfold, hre, hmatch]
      · intro t htpre htsfx
        rcases eq_or_ne t [] with rfl | ht0
        · rw [List.suffix_nil] at htsfx
          exact absurd htsfx hsep
        · simpa using readUntilPure_min (htmlEscape d) bs [] r hmatch t ht0
            htpre (by simpa using htsfx)
  | none =>
      right
      refine ⟨by rw [hunfold, hre, hmatch], ?_⟩
      intro t htpre htsfx
      rcases eq_or_ne t [] with rfl | ht0
      · rw [List.suffix_nil] at htsfx
        exact hsep htsfx
      · exact readUntilPure_none_spec (htmlEscape d) bs [] hmatch t ht0 htpre
          (by simpa using htsfx)

/-- Witness for `readall_delim_escaped` at delimiter `b"\r\n"` and device
bytes `b"OK\r\n"` (the spec's own round-trip vector). -/
theorem readall_delim_escaped_witness :
    "\r\n".toList ≠ [] ∧
      ((∃ r, readall (some "\r\n".toList)
            (("OK\r\n".toList).map ReadEvent.byteEv ++ [ReadEvent.endEv])
            = some r ∧
          r <+: "OK\r\n".toList ∧ htmlEscape "\r\n".toList <:+ r ∧
          ∀ t, t <+: "OK\r\n".toList → htmlEscape "\r\n".toList <:+ t →
            r.length ≤ t.length) ∨
        (readall (some "\r\n".toList)
            (("OK\r\n".toList).map ReadEvent.byteEv ++ [ReadEvent.endEv])
            = some [] ∧
          ∀ t, t <+: "OK\r\n".toList → ¬ htmlEscape "\r\n".toList <:+ t)) :=
  ⟨by decide, readall_delim_escaped "\r\n".toList "OK\r\n".toList (by decide)⟩

end SimpleCom
